import Mathlib

/-!
Shallow embedding of the board-resolution engine and turn/round controller of
`MATCH.py` (a 20×20 tile-matching puzzle game).  The board is a list of COLS
columns, each a list of ROWS tile values (`board[c][r]` in the source becomes
`getCell b c r`).  Randomness (`random.randrange`) is modelled by an explicit
tile supply `gen : Nat → Nat` consumed at an explicit counter, mirroring the
order in which the Python code draws random tiles.  Loops that Python runs
unboundedly are given explicit fuel; a `Bool` flag records whether the loop
exited through its own stop condition (`true`) or by exhausting fuel.
-/

namespace MatchGame

/-- `COLS, ROWS = 20, 20` -/
def COLS : Nat := 20

/-- `COLS, ROWS = 20, 20` -/
def ROWS : Nat := 20

/-- `TILE_COLORS` — the six RGB tile colors. -/
def TILE_COLORS : List (Nat × Nat × Nat) :=
  [(62, 191, 238), (238, 84, 76), (255, 207, 65),
   (97, 219, 112), (98, 142, 255), (177, 102, 235)]

/-- `EMPTY = -1` -/
def EMPTY : Int := -1

/-- A board is a list of `COLS` columns, each a list of `ROWS` tile values
(`board[c][r]` indexes column `c`, row `r`). -/
abbrev Board := List (List Int)

/-- A cell coordinate `(c, r)`. -/
abbrev Pos := Nat × Nat

/-- Read `board[c][r]` (all source accesses are bounds-guarded; out-of-range
reads default to `EMPTY`). -/
def getCell (b : Board) (c r : Nat) : Int :=
  (b.getD c []).getD r EMPTY

/-- Write `board[c][r] = v`. -/
def setCell (b : Board) (c r : Nat) (v : Int) : Board :=
  b.set c ((b.getD c []).set r v)

/-- `in_bounds(c, r)`: `0 <= c < COLS and 0 <= r < ROWS` (on integers, since
the source forms coordinates like `c - 1` before the check). -/
def in_bounds (c r : Int) : Bool :=
  0 ≤ c && c < (COLS : Int) && 0 ≤ r && r < (ROWS : Int)

/-- `random_tile()`: `random.randrange(len(TILE_COLORS))`, the `i`-th draw
from the supply `gen`. -/
def random_tile (gen : Nat → Nat) (i : Nat) : Int :=
  ((gen i) % TILE_COLORS.length : Nat)

/-- `swap_cells(board, a, b)`: exchange the two cells' values. -/
def swap_cells (b : Board) (a b' : Pos) : Board :=
  let t1 := getCell b a.1 a.2
  let t2 := getCell b b'.1 b'.2
  setCell (setCell b a.1 a.2 t2) b'.1 b'.2 t1

/-- The `while i >= 0 and board[i][r] == t` arm of `has_match_at`: number of
consecutive cells equal to `t` at columns `c-1, c-2, …` of row `r`. -/
def runLeft (b : Board) (t : Int) : Nat → Nat → Nat
  | 0, _ => 0
  | c + 1, r => if getCell b c r = t then runLeft b t c r + 1 else 0

/-- The `while i < COLS and board[i][r] == t` arm of `has_match_at`: number of
consecutive cells equal to `t` at columns `c, c+1, …` of row `r` (fuel-bounded
by the remaining width). -/
def runRight (b : Board) (t : Int) (r : Nat) : Nat → Nat → Nat
  | 0, _ => 0
  | fuel + 1, c =>
    if c < COLS ∧ getCell b c r = t then runRight b t r fuel (c + 1) + 1 else 0

/-- The upward arm of the vertical scan in `has_match_at`. -/
def runUp (b : Board) (t : Int) : Nat → Nat → Nat
  | _, 0 => 0
  | c, r + 1 => if getCell b c r = t then runUp b t c r + 1 else 0

/-- The downward arm of the vertical scan in `has_match_at`. -/
def runDown (b : Board) (t : Int) (c : Nat) : Nat → Nat → Nat
  | 0, _ => 0
  | fuel + 1, r =>
    if r < ROWS ∧ getCell b c r = t then runDown b t c fuel (r + 1) + 1 else 0

/-- `has_match_at(board, c, r)`: the cell participates in a horizontal or
vertical run of length ≥ 3 of its own (non-`EMPTY`) color. -/
def has_match_at (b : Board) (c r : Nat) : Bool :=
  let t := getCell b c r
  if t = EMPTY then false
  else if 3 ≤ 1 + runLeft b t c r + runRight b t r (COLS - (c + 1)) (c + 1) then true
  else 3 ≤ 1 + runUp b t c r + runDown b t c (ROWS - (r + 1)) (r + 1)

/-- The initial fill of `new_board`:
`board = [[random_tile() for _ in range(ROWS)] for _ in range(COLS)]`,
drawing supply indices in the order `c*ROWS + r`. -/
def initial_board (gen : Nat → Nat) (i : Nat) : Board × Nat :=
  ((List.range COLS).map (fun c => (List.range ROWS).map (fun r =>
    random_tile gen (i + c * ROWS + r))), i + COLS * ROWS)

/-- The per-cell reroll loop of `new_board`:
`while has_match_at(board, c, r): reroll; tries += 1; if tries > 20: break`.
The fuel argument is the number of rerolls still allowed (21 at entry; the
break fires after the 21st reroll, without rechecking). -/
def reroll_cell (gen : Nat → Nat) : Nat → Board → Nat → Nat → Nat → Board × Nat
  | 0, b, _, _, i => (b, i)
  | fuel + 1, b, c, r, i =>
    if has_match_at b c r then
      reroll_cell gen fuel (setCell b c r (random_tile gen i)) c r (i + 1)
    else (b, i)

/-- Phase 1 of `new_board`: reroll every cell (in `c`-outer, `r`-inner order)
that participates in a ≥3 run, with a 20-try budget per cell. -/
def new_board_phase1 (gen : Nat → Nat) (b : Board) (i : Nat) : Board × Nat :=
  (List.range COLS).foldl (fun acc c =>
    (List.range ROWS).foldl (fun acc r =>
      reroll_cell gen 21 acc.1 c r acc.2) acc) (b, i)

/-- One sweep of the 2×2-block-breaking loop of `new_board`: every 2×2
same-color block found has its bottom-right corner rerolled; the flag records
whether any reroll happened. -/
def break_blocks_sweep (gen : Nat → Nat) (b : Board) (i : Nat) :
    Board × Nat × Bool :=
  (List.range (COLS - 1)).foldl (fun acc c =>
    (List.range (ROWS - 1)).foldl (fun acc r =>
      let t := getCell acc.1 c r
      if t ≠ EMPTY ∧ getCell acc.1 (c + 1) r = t ∧ getCell acc.1 c (r + 1) = t ∧
          getCell acc.1 (c + 1) (r + 1) = t then
        (setCell acc.1 (c + 1) (r + 1) (random_tile gen acc.2.1),
         acc.2.1 + 1, true)
      else acc) acc) (b, i, false)

/-- The `while changed and iter_guard < 1000` loop of `new_board`: repeat
sweeps while one changed something, at most 1000 sweeps. -/
def break_blocks (gen : Nat → Nat) : Nat → Board → Nat → Board × Nat
  | 0, b, i => (b, i)
  | fuel + 1, b, i =>
    let s := break_blocks_sweep gen b i
    if s.2.2 then break_blocks gen fuel s.1 s.2.1 else (s.1, s.2.1)

/-- `new_board()`: random fill, then per-cell match rerolls (20-try budget),
then the bounded (1000-sweep) 2×2-block-breaking loop. -/
def new_board (gen : Nat → Nat) (i : Nat) : Board × Nat :=
  let p0 := initial_board gen i
  let p1 := new_board_phase1 gen p0.1 p0.2
  break_blocks gen 1000 p1.1 p1.2

/-- The row scan of `find_all_matches`: starting at column `c` of row `r`,
collapse maximal runs, keeping those of length ≥ 3 as groups.  Each loop
iteration advances `c` by the run length (or by 1 over an `EMPTY` cell), so
fuel `COLS` suffices. -/
def scanRow (b : Board) (r : Nat) : Nat → Nat → List (List Pos)
  | 0, _ => []
  | fuel + 1, c =>
    if c < COLS then
      let t := getCell b c r
      if t = EMPTY then scanRow b r fuel (c + 1)
      else
        let len := runRight b t r (COLS - c) c
        if 3 ≤ len then
          ((List.range len).map (fun k => ((c + k : Nat), r))) :: scanRow b r fuel (c + len)
        else scanRow b r fuel (c + len)
    else []

/-- The column scan of `find_all_matches`, symmetric to `scanRow`. -/
def scanCol (b : Board) (c : Nat) : Nat → Nat → List (List Pos)
  | 0, _ => []
  | fuel + 1, r =>
    if r < ROWS then
      let t := getCell b c r
      if t = EMPTY then scanCol b c fuel (r + 1)
      else
        let len := runDown b t c (ROWS - r) r
        if 3 ≤ len then
          ((List.range len).map (fun k => (c, (r + k : Nat)))) :: scanCol b c fuel (r + len)
        else scanCol b c fuel (r + len)
    else []

/-- `cur & g` nonempty: the two coordinate sets share a cell. -/
def overlaps (g h : List Pos) : Bool :=
  g.any (fun p => h.contains p)

/-- Find the first group overlapping `cur` and remove it from the list
(the `for i, g in enumerate(groups): if cur & g: groups.pop(i)` step). -/
def pop_first_overlap (cur : List Pos) :
    List (List Pos) → Option (List Pos × List (List Pos))
  | [] => none
  | g :: gs =>
    if overlaps cur g then some (g, gs)
    else
      match pop_first_overlap cur gs with
      | none => none
      | some p => some (p.1, g :: p.2)

/-- The `while expanded` loop of `find_all_matches`: repeatedly absorb into
`cur` the first remaining group sharing a coordinate.  The flag records
whether any absorption happened. -/
def absorb : Nat → List Pos → List (List Pos) → List Pos × List (List Pos) × Bool
  | 0, cur, gs => (cur, gs, false)
  | fuel + 1, cur, gs =>
    match pop_first_overlap cur gs with
    | none => (cur, gs, false)
    | some p =>
      let q := absorb fuel (cur.union p.1) p.2
      (q.1, q.2.1, true)

/-- One `while groups:` pass of the merge loop: pop groups from the end,
absorb overlaps, append to `out`. -/
def merge_pass : Nat → List (List Pos) → List (List Pos) → Bool →
    List (List Pos) × Bool
  | 0, _, out, m => (out, m)
  | fuel + 1, gs, out, m =>
    match gs.getLast? with
    | none => (out, m)
    | some cur =>
      let rest := gs.dropLast
      let q := absorb rest.length cur rest
      merge_pass fuel q.2.1 (out ++ [q.1]) (m || q.2.2)

/-- The outer `while merged` loop of `find_all_matches`.  Each pass that
merges something strictly shrinks the group list, so `length + 1` passes
reproduce the source's run-to-quiescence behavior. -/
def merge_groups : Nat → List (List Pos) → List (List Pos)
  | 0, gs => gs
  | fuel + 1, gs =>
    let q := merge_pass (gs.length + 1) gs [] false
    if q.2 then merge_groups fuel q.1 else q.1

/-- `find_all_matches(board)`: row runs, then column runs, then union-merge
of groups sharing a coordinate. -/
def find_all_matches (b : Board) : List (List Pos) :=
  let gs := (List.range ROWS).flatMap (fun r => scanRow b r COLS 0) ++
            (List.range COLS).flatMap (fun c => scanCol b c ROWS 0)
  merge_groups (gs.length + 1) gs

/-- The 2×2 same-color block scan used by `legal_swap` (and, as
`is_bomb_top_left` over all windows, by the cascade code). -/
def bomb_block_exists (b : Board) : Bool :=
  (List.range (COLS - 1)).any (fun c => (List.range (ROWS - 1)).any (fun r =>
    let t := getCell b c r
    decide (t ≠ EMPTY ∧ getCell b (c + 1) r = t ∧ getCell b c (r + 1) = t ∧
      getCell b (c + 1) (r + 1) = t)))

/-- Manhattan distance `abs(c1-c2) + abs(r1-r2)` between two cells. -/
def manhattan (a b' : Pos) : Nat :=
  ((a.1 : Int) - b'.1).natAbs + ((a.2 : Int) - b'.2).natAbs

/-- `legal_swap(board, a, b)` as a pure predicate: adjacent, and the swapped
board has a match (or, when `BOMB_ENABLED_FOR_AI`, a 2×2 same-color block). -/
def legal_swap (bombAI : Bool) (b : Board) (a b' : Pos) : Bool :=
  if manhattan a b' ≠ 1 then false
  else
    let sw := swap_cells b a b'
    if find_all_matches sw = [] then
      if bombAI then bomb_block_exists sw else false
    else true

/-- `legal_swap` as the source runs it: swap in place, test, swap back in the
`finally` block; returns the verdict together with the board it leaves
behind. -/
def legal_swap_run (bombAI : Bool) (b : Board) (a b' : Pos) : Bool × Board :=
  if manhattan a b' ≠ 1 then (false, b)
  else
    let sw := swap_cells b a b'
    let ok :=
      if find_all_matches sw = [] then
        if bombAI then bomb_block_exists sw else false
      else true
    (ok, swap_cells sw a b')

/-- `is_bomb_top_left(board, c, r)`: the 2×2 block with top-left `(c, r)` is
entirely one non-empty color. -/
def is_bomb_top_left (b : Board) (c r : Nat) : Bool :=
  if COLS ≤ c + 1 ∨ ROWS ≤ r + 1 then false
  else
    let t := getCell b c r
    decide (t ≠ EMPTY ∧ getCell b (c + 1) r = t ∧ getCell b c (r + 1) = t ∧
      getCell b (c + 1) (r + 1) = t)

/-- `bomb_explosion_cells(c, r)`: the 4×4 footprint around the 2×2 block with
top-left `(c, r)`, clipped to bounds (`range(c-1, c+3) × range(r-1, r+3)`). -/
def bomb_explosion_cells (c r : Nat) : List Pos :=
  (List.range 4).flatMap (fun dx => (List.range 4).filterMap (fun dy =>
    let x : Int := (c : Int) - 1 + dx
    let y : Int := (r : Int) - 1 + dy
    if in_bounds x y then some (x.toNat, y.toNat) else none))

/-- The bomb scan of the cascade code: every `(c, r)` with
`c < COLS-1, r < ROWS-1` whose 2×2 block is one non-empty color, in loop
order. -/
def bomb_top_lefts (b : Board) : List Pos :=
  (List.range (COLS - 1)).flatMap (fun c =>
    (List.range (ROWS - 1)).filterMap (fun r =>
      if is_bomb_top_left b c r then some (c, r) else none))

/-- The color-blast expansion shared by `simulate_full_chain` and
`start_pop`: same-colored cells 4-adjacent to a matched group, excluding
already-matched cells, collected as a set. -/
def chain_neighbors (b : Board) (base : List (List Pos)) : List Pos :=
  let matched := base.foldl (fun acc g => acc.union g) []
  base.foldl (fun acc g =>
    match g.head? with
    | none => acc
    | some s =>
      if in_bounds (s.1 : Int) (s.2 : Int) then
        let color := getCell b s.1 s.2
        if color = EMPTY then acc
        else
          g.foldl (fun acc p =>
            [((1 : Int), (0 : Int)), (-1, 0), (0, 1), (0, -1)].foldl (fun acc d =>
              let nc := (p.1 : Int) + d.1
              let nr := (p.2 : Int) + d.2
              if in_bounds nc nr ∧ (nc.toNat, nr.toNat) ∉ matched ∧
                  getCell b nc.toNat nr.toNat = color then
                acc.insert (nc.toNat, nr.toNat)
              else acc) acc) acc
      else acc) []

/-- What one cascade step computes before clearing: base match groups,
color-blast neighbors, bomb top-lefts, the group list with bomb footprints
appended, and the union set of cells to remove. -/
structure StepInfo where
  base : List (List Pos)
  neighbors : List Pos
  bombs : List Pos
  groups : List (List Pos)
  toRemove : List Pos

/-- One cascade step's detection phase, shared verbatim (modulo animation) by
`simulate_full_chain`'s loop body and `start_pop`. -/
def chain_step_data (bombE chainE : Bool) (b : Board) : StepInfo :=
  let base := find_all_matches b
  let neighbors := if chainE ∧ base ≠ [] then chain_neighbors b base else []
  let bombs := if bombE then bomb_top_lefts b else []
  let groups := base ++ bombs.map (fun p => bomb_explosion_cells p.1 p.2)
  let cleared := groups.foldl (fun acc g => acc.union g) []
  let toRemove := if neighbors ≠ [] then cleared.union neighbors else cleared
  ⟨base, neighbors, bombs, groups, toRemove⟩

/-- Mark all cells to clear as `EMPTY`. -/
def clear_cells (b : Board) (cells : List Pos) : Board :=
  cells.foldl (fun acc p => setCell acc p.1 p.2 EMPTY) b

/-- The gravity compaction of one column: keep non-`EMPTY` values in order at
the bottom and refill the `holes` vacated top cells with fresh random tiles.
The source's downward write loop draws its randoms for rows
`holes-1, holes-2, …, 0` in that order, which is reproduced by the supply
indices here. -/
def fall_column (gen : Nat → Nat) (col : List Int) (i : Nat) : List Int × Nat :=
  let vals := col.filter (fun t => decide (t ≠ EMPTY))
  let holes := ROWS - vals.length
  (((List.range holes).map (fun r => random_tile gen (i + (holes - 1 - r)))) ++ vals,
   i + holes)

/-- Gravity over all columns, left to right, threading the tile supply. -/
def fall_board (gen : Nat → Nat) : List (List Int) → Nat → List (List Int) × Nat
  | [], i => ([], i)
  | col :: rest, i =>
    let q := fall_column gen col i
    let q2 := fall_board gen rest q.2
    (q.1 :: q2.1, q2.2)

/-- The `while True` cascade loop of `simulate_full_chain` (and, one step per
frame, of `start_pop`/`start_fall`/`after_fall`): detect, stop if nothing to
clear, otherwise accumulate `|to_remove| + 2 * bombs`, clear, let tiles fall,
repeat.  Returns `(total_cleared, board, supply counter, done)`, where `done`
is `false` only if the fuel ran out before the loop's own stop condition. -/
def run_chain (bombE chainE : Bool) (gen : Nat → Nat) :
    Nat → Board → Nat → Nat → Nat × Board × Nat × Bool
  | 0, b, total, i => (total, b, i, false)
  | fuel + 1, b, total, i =>
    let d := chain_step_data bombE chainE b
    if d.groups = [] ∧ d.neighbors = [] then (total, b, i, true)
    else
      let total' := total + d.toRemove.length + 2 * d.bombs.length
      let q := fall_board gen (clear_cells b d.toRemove) i
      run_chain bombE chainE gen fuel q.1 total' q.2

/-- `simulate_full_chain(board, a, b)`: swap, run the cascade loop to its
fixed point, and convert the cleared-tile tally to points
(`1 + (total - 3)` when `total >= 3`, else 0).  Returns the points paired
with the advanced supply counter. -/
def simulate_full_chain (bombE chainE : Bool) (gen : Nat → Nat) (fuel : Nat)
    (b : Board) (a b' : Pos) (i : Nat) : Nat × Nat :=
  let q := run_chain bombE chainE gen fuel (swap_cells b a b') 0 i
  (if 3 ≤ q.1 then 1 + (q.1 - 3) else 0, q.2.2.1)

/-- The candidate enumeration of `all_scoring_swaps`: every cell, each of the
four directions `(1,0),(0,1),(-1,0),(0,-1)`, kept when the neighbor is in
bounds (the Manhattan-distance re-check of the source is always true but is
reproduced). -/
def swap_candidates : List (Pos × Pos) :=
  (List.range COLS).flatMap (fun c => (List.range ROWS).flatMap (fun r =>
    [((1 : Int), (0 : Int)), (0, 1), (-1, 0), (0, -1)].filterMap (fun d =>
      let nc := (c : Int) + d.1
      let nr := (r : Int) + d.2
      if in_bounds nc nr then
        if manhattan (c, r) (nc.toNat, nr.toNat) = 1 then
          some ((c, r), (nc.toNat, nr.toNat))
        else none
      else none)))

/-- The move-collection loop of `all_scoring_swaps`: for each legal candidate
swap, simulate the full chain on a scratch copy and record
`(pts, a, b)`, threading the tile supply counter through the simulations. -/
def raw_scoring_moves (bombAI chainAI : Bool) (gen : Nat → Nat) (fuel : Nat)
    (b : Board) (i0 : Nat) : List (Nat × Pos × Pos) × Nat :=
  swap_candidates.foldl (fun acc ab =>
    if legal_swap bombAI b ab.1 ab.2 then
      let q := simulate_full_chain bombAI chainAI gen fuel b ab.1 ab.2 acc.2
      (acc.1 ++ [(q.1, ab.1, ab.2)], q.2)
    else acc) ([], i0)

/-- `key = tuple(sorted([a, b]))`: the canonical (lexicographically ordered)
form of the undirected cell pair of a move. -/
def pair_key (m : Nat × Pos × Pos) : Pos × Pos :=
  if m.2.1.1 < m.2.2.1 ∨ (m.2.1.1 = m.2.2.1 ∧ m.2.1.2 ≤ m.2.2.2) then
    (m.2.1, m.2.2)
  else (m.2.2, m.2.1)

/-- One `uniq[key] = …` update of `all_scoring_swaps`: keyed by the
undirected pair, the first insertion fixes the position, and a later move
replaces the stored one only when its score is strictly greater
(`pts > uniq[key][0]`). -/
def dedup_insert (acc : List (Nat × Pos × Pos)) (m : Nat × Pos × Pos) :
    List (Nat × Pos × Pos) :=
  if acc.any (fun e => pair_key e = pair_key m) then
    acc.map (fun e => if pair_key e = pair_key m ∧ e.1 < m.1 then m else e)
  else acc ++ [m]

/-- The `uniq` dict of `all_scoring_swaps`, built move by move in insertion
order. -/
def dedup_best (ms : List (Nat × Pos × Pos)) : List (Nat × Pos × Pos) :=
  ms.foldl dedup_insert []

/-- The sort order of `all_scoring_swaps`: descending score. -/
def score_ge (x y : Nat × Pos × Pos) : Prop := y.1 ≤ x.1

instance : DecidableRel score_ge := fun x y => Nat.decLe y.1 x.1

instance : IsTotal (Nat × Pos × Pos) score_ge := ⟨fun a b => Nat.le_total b.1 a.1⟩

instance : IsTrans (Nat × Pos × Pos) score_ge := ⟨fun _ _ _ h1 h2 => le_trans h2 h1⟩

/-- `sorted(uniq.values(), key=lambda x: -x[0])`: a stable sort by descending
score (insertion sort with a total preorder is stable, like Python's
`sorted`). -/
def all_scoring_swaps (bombAI chainAI : Bool) (gen : Nat → Nat) (fuel : Nat)
    (b : Board) (i0 : Nat) : List (Nat × Pos × Pos) :=
  List.insertionSort score_ge (dedup_best (raw_scoring_moves bombAI chainAI gen fuel b i0).1)

/-- The computer turn of the main loop: `moves = all_scoring_swaps(board)`;
if any exist, play `moves[0]`. -/
def computer_turn_move (bombAI chainAI : Bool) (gen : Nat → Nat) (fuel : Nat)
    (b : Board) (i0 : Nat) : Option (Pos × Pos) :=
  match all_scoring_swaps bombAI chainAI gen fuel b i0 with
  | [] => none
  | m :: _ => some m.2

/-- `turn_order_mode`: `consecutive` or `round_robin`. -/
inductive TurnOrder
  | consecutive
  | roundRobin
deriving DecidableEq, Repr

/-- The `state` values `end_move` can leave the match loop in. -/
inductive Phase
  | idle
  | announce
  | roundAnnounce
  | gameOver
deriving DecidableEq, Repr

/-- The configuration read by `end_move`: `players_count`,
`moves_per_round`, `total_rounds`, `turn_order_mode`, and whether
`time_mode == "blitz"`. -/
structure GConfig where
  playersCount : Nat
  movesPerRound : Nat
  totalRounds : Nat
  order : TurnOrder
  blitz : Bool
deriving DecidableEq, Repr

/-- The mutable game state `end_move` touches: `scores`, `turn`,
`current_round`, `moves_left_per_player`, `forced_pass`,
`move_cleared_total`, `chain_owner`, and the match-loop `state`. -/
structure GState where
  scores : List Nat
  turn : Nat
  currentRound : Nat
  movesLeft : List Nat
  forcedPass : Bool
  moveClearedTotal : Nat
  chainOwner : Nat
  phase : Phase
deriving DecidableEq, Repr

/-- `all_zero(arr)`: `all(v <= 0 for v in arr)`. -/
def all_zero (l : List Nat) : Bool :=
  l.all (fun v => v ≤ 0)

/-- `start_round_banner()`: enter `round_announce`, reset `turn` to 0 and
every player's remaining moves to the per-round allotment. -/
def start_round_banner (cfg : GConfig) (s : GState) : GState :=
  { s with phase := .roundAnnounce, turn := 0,
           movesLeft := List.replicate cfg.playersCount cfg.movesPerRound }

/-- `maybe_finish_round()`: when every remaining-move count is 0, advance the
round (clearing `forced_pass`); past the last round enter `game_over`,
otherwise re-enter `round_announce` via `start_round_banner`.  `none` means
the round did not finish. -/
def maybe_finish_round (cfg : GConfig) (s : GState) : Option GState :=
  if all_zero s.movesLeft then
    let s' := { s with currentRound := s.currentRound + 1, forcedPass := false }
    if cfg.totalRounds < s'.currentRound then some { s' with phase := .gameOver }
    else some (start_round_banner cfg s')
  else none

/-- The `round_robin` advance loop of `end_move`: the first candidate
`(current_turn + i) % players_count` for `i = 1 … players_count` that still
has moves left. -/
def find_next_turn (cfg : GConfig) (moves : List Nat) (cur : Nat) : Option Nat :=
  ((List.range cfg.playersCount).map (fun j => (cur + (j + 1)) % cfg.playersCount)).find?
    (fun cand => 0 < moves.getD cand 0)

/-- The move-consumption step of `end_move`: zero the mover's count on a
forced pass, else decrement it (floored at 0). -/
def dec_moves (s : GState) (cur : Nat) : List Nat :=
  if s.forcedPass then s.movesLeft.set cur 0
  else s.movesLeft.set cur (s.movesLeft.getD cur 0 - 1)

/-- The scoring step of `end_move`: when the move cleared at least 3
tile-units `T`, add `1 + (T - 3)` to the chain owner's score. -/
def award_scores (s : GState) : List Nat :=
  if 3 ≤ s.moveClearedTotal then
    s.scores.set s.chainOwner
      (s.scores.getD s.chainOwner 0 + (1 + (s.moveClearedTotal - 3)))
  else s.scores

/-- The scoring prefix of `end_move`: award points and reset
`move_cleared_total`. -/
def after_scoring (s : GState) : GState :=
  { s with scores := award_scores s, moveClearedTotal := 0 }

/-- The state after `end_move` has awarded points and consumed the mover's
move. -/
def after_consume (s : GState) : GState :=
  { after_scoring s with movesLeft := dec_moves (after_scoring s) s.turn }

/-- `end_move()`: award points to the chain owner, consume the mover's move,
then finish the round or advance the turn according to the turn-order
policy. -/
def end_move (cfg : GConfig) (s : GState) : GState :=
  let cur := s.turn
  let s2 : GState := after_consume s
  match maybe_finish_round cfg s2 with
  | some s' => s'
  | none =>
    match cfg.order with
    | .consecutive =>
      if s2.forcedPass then
        let s3 : GState := { s2 with forcedPass := false, turn := (cur + 1) % cfg.playersCount }
        match maybe_finish_round cfg s3 with
        | some s' => s'
        | none => { s3 with phase := .announce }
      else if 0 < s2.movesLeft.getD cur 0 then
        if cfg.blitz then { s2 with phase := .idle } else { s2 with phase := .announce }
      else
        let s3 : GState := { s2 with turn := (cur + 1) % cfg.playersCount }
        match maybe_finish_round cfg s3 with
        | some s' => s'
        | none => { s3 with phase := .announce }
    | .roundRobin =>
      let s3 : GState := { s2 with forcedPass := false }
      match find_next_turn cfg s3.movesLeft cur with
      | some cand => { s3 with turn := cand, phase := .announce }
      | none =>
        match maybe_finish_round cfg s3 with
        | some s' => s'
        | none => start_round_banner cfg s3

/-- `max(scores)` of `draw_game_over` (scores are non-negative, so folding
from 0 agrees with Python's `max` on nonempty lists). -/
def best_score (scores : List Nat) : Nat :=
  scores.foldl max 0

/-- The winner list of `draw_game_over`: every index whose score equals the
maximum. -/
def winners_list (scores : List Nat) : List Nat :=
  (List.range scores.length).filter (fun j => scores.getD j 0 = best_score scores)

/-- The `draw_game_over` verdict: a sole top scorer wins; several top scorers
are a draw (`none`) — no tiebreak. -/
def game_over_winner (scores : List Nat) : Option Nat :=
  match winners_list scores with
  | [w] => some w
  | _ => none

/-- The `n = 1; while n < len(order): n <<= 1` power-of-two padding size of
`build_bracket` (fuel-bounded doubling). -/
def next_pow2_aux : Nat → Nat → Nat → Nat
  | 0, n, _ => n
  | fuel + 1, n, len => if n < len then next_pow2_aux fuel (2 * n) len else n

/-- Next power of two at or above `len`. -/
def next_pow2 (len : Nat) : Nat :=
  next_pow2_aux len 1 len

/-- Round 0 of `build_bracket`: consecutive slots paired up. -/
def make_pairs : List (Option Nat) → List (Option Nat × Option Nat)
  | a :: b :: rest => (a, b) :: make_pairs rest
  | _ => []

/-- The `while m > 1` placeholder rounds of `build_bracket`: each subsequent
round has half as many `(None, None)` nodes. -/
def empty_rounds : Nat → Nat → List (List (Option Nat × Option Nat))
  | 0, _ => []
  | fuel + 1, m =>
    if 1 < m then List.replicate (m / 2) ((none : Option Nat), (none : Option Nat)) :: empty_rounds fuel (m / 2)
    else []

/-- `build_bracket(players_count)`: the shuffled player order (supplied here
by the caller, standing for `random.shuffle`) is padded with byes to the next
power of two, paired into round 0, and extended with empty placeholder
rounds down to a single final node. -/
def build_bracket (order : List Nat) : List (List (Option Nat × Option Nat)) :=
  let n := next_pow2 order.length
  let ord := order.map (fun x => (some x : Option Nat)) ++
             List.replicate (n - order.length) (none : Option Nat)
  let r0 := make_pairs ord
  r0 :: empty_rounds r0.length r0.length

/-- `auto_advance_byes(rounds)`: pre-filled results `((ri, mi), winner)` for
every pair with exactly one `None` side. -/
def auto_advance_byes (rounds : List (List (Option Nat × Option Nat))) :
    List ((Nat × Nat) × Option Nat) :=
  (List.range rounds.length).flatMap (fun ri =>
    let r := rounds.getD ri []
    (List.range r.length).filterMap (fun mi =>
      let p := r.getD mi (none, none)
      if p.1.isNone != p.2.isNone then
        some ((ri, mi), if p.1.isNone then p.2 else p.1)
      else none))

/-- A well-formed board: `COLS` columns of `ROWS` cells each. -/
def WF (b : Board) : Prop :=
  b.length = COLS ∧ ∀ col ∈ b, col.length = ROWS

instance : DecidablePred WF := fun b => by
  unfold WF; infer_instance

/-- A scored move `(pts, a, b)` as collected by `all_scoring_swaps`. -/
abbrev Move := Nat × Pos × Pos

/-- What the `uniq` dict of `all_scoring_swaps` guarantees after processing
the prefix `done` of the raw move list: every retained entry dominates all
same-key moves seen so far, is the first-seen move attaining that score
(Python keeps the first on ties), keys are pairwise distinct, and every key
seen is represented. -/
def KeyInv (done acc : List Move) : Prop :=
  (∀ e ∈ acc, ∀ m ∈ done, pair_key m = pair_key e → m.1 ≤ e.1) ∧
  (∀ e ∈ acc,
    done.find? (fun m => decide (pair_key m = pair_key e ∧ e.1 ≤ m.1)) = some e) ∧
  List.Pairwise (fun x y => pair_key x ≠ pair_key y) acc ∧
  (∀ m ∈ done, ∃ e ∈ acc, pair_key e = pair_key m)

/-! Concrete boards, tile supplies and controller states used to instantiate
the theorems below on explicit inputs. -/

/-- Build a full `COLS × ROWS` board from a cell function. -/
def mkBoard (f : Nat → Nat → Int) : Board :=
  (List.range COLS).map (fun c => (List.range ROWS).map (fun r => f c r))

/-- A match-free, 2×2-block-free filler pattern: cell `(c, r)` holds
`(c + 2r) % 4`. -/
def patt (c r : Nat) : Int :=
  ((c + 2 * r) % 4 : Nat)

/-- The filler pattern as a board. -/
def pattB : Board :=
  mkBoard patt

/-- Pattern board with a horizontal 3-run of the otherwise unused color 4
across `(0,0)–(2,0)`. -/
def runB : Board :=
  mkBoard (fun c r => if r = 0 ∧ c < 3 then 4 else patt c r)

/-- Supply whose first draws restore the pattern in the top row after the
3-run of `runB` is cleared. -/
def runGen : Nat → Nat :=
  fun i => i

/-- Pattern board with an almost-complete 2×2 block of color 4 at
`(8,8)–(9,9)` (corner `(9,9)` missing) and the completing fourth 4 parked at
`(10,9)`. -/
def bombB : Board :=
  mkBoard (fun c r =>
    if (c = 8 ∧ r = 8) ∨ (c = 9 ∧ r = 8) ∨ (c = 8 ∧ r = 9) ∨ (c = 10 ∧ r = 9) then 4
    else patt c r)

/-- Supply that refills the four bombed columns back to the pattern. -/
def bombGen : Nat → Nat :=
  fun i => if i < 16 then ((7 + i / 4) + 2 * (3 - i % 4)) % 4 else 0

/-- A tile supply on which `new_board` returns a board that still contains a
run: the initial fill is the pattern except that `(0,1)` is forced to 0
(making column 0 start `0,0,0`), and every reroll draw returns 0 again, so
the 20-try budgets for `(0,0)`, `(0,1)`, `(0,2)` are exhausted with the
vertical run intact. -/
def stuckGen : Nat → Nat :=
  fun i => if i = 1 then 0 else if i < 400 then (i / 20 + 2 * (i % 20)) % 4 else 0

/-- The board `new_board` produces on `stuckGen`: the pattern with `(0,1)`
forced to 0 (every reroll redraws the same 0, so no cell value ever
changes). -/
def stuckB : Board :=
  mkBoard (fun c r => if c = 0 ∧ r = 1 then 0 else patt c r)

/-- Board with exactly one scoring swap: 4s at `(0,0)`, `(1,0)` and `(2,1)`;
swapping `(2,1)` with `(2,0)` completes the run. -/
def aiB : Board :=
  mkBoard (fun c r =>
    if (c = 0 ∧ r = 0) ∨ (c = 1 ∧ r = 0) ∨ (c = 2 ∧ r = 1) then 4 else patt c r)

/-- Refill supply for `aiB` simulations. -/
def aiGen : Nat → Nat :=
  fun i => i % 3

/-- The top-ranked move of the concrete move list `msW`. -/
def mvA : Move := (4, (2, 0), (2, 1))

/-- A concrete raw move list: two orientations of one pair scoring 4 (tie →
first seen kept) and a different pair scoring 1. -/
def msW : List Move := [(1, (0, 0), (0, 1)), (4, (2, 0), (2, 1)), (4, (2, 1), (2, 0))]

/-- 2 players, 3 moves per round, 1 round, consecutive turn order. -/
def cfgC : GConfig :=
  ⟨2, 3, 1, .consecutive, false⟩

/-- 2 players, 3 moves per round, 1 round, round-robin turn order. -/
def cfgR : GConfig :=
  ⟨2, 3, 1, .roundRobin, false⟩

/-- Start-of-round state for the two-player configurations: both players have
3 moves, player 0 to move, a 3-unit clear pending scoring. -/
def sInit : GState :=
  ⟨[0, 0], 0, 1, [3, 3], false, 3, 0, .idle⟩

/-- A mid-game state used as a concrete scoring/turn-advance input: player 1
owns a 7-unit chain while player 0 is current with one move left. -/
def sMid : GState :=
  ⟨[4, 9], 0, 1, [1, 3], false, 7, 1, .idle⟩

/-- An exhausted final-round state: both players out of moves, round counter
already past the configured total. -/
def sDone : GState :=
  ⟨[5, 5], 0, 2, [0, 0], false, 0, 0, .gameOver⟩

/-! ## Helper lemmas -/

theorem getD_set_self {α : Type} (l : List α) :
    ∀ (i : Nat) (v d : α), i < l.length → (l.set i v).getD i d = v := by
  induction l with
  | nil => intro i v d h; simp at h
  | cons x xs ih =>
    intro i v d h
    cases i with
    | zero => rfl
    | succ n => simpa using ih n v d (by simpa using h)

theorem getD_set_other {α : Type} (l : List α) :
    ∀ (i j : Nat) (v d : α), i ≠ j → (l.set i v).getD j d = l.getD j d := by
  induction l with
  | nil => intro i j v d _; rfl
  | cons x xs ih =>
    intro i j v d hij
    cases i with
    | zero =>
      cases j with
      | zero => exact absurd rfl hij
      | succ n => rfl
    | succ m =>
      cases j with
      | zero => rfl
      | succ n => simpa using ih m n v d (by omega)

theorem set_getD_self {α : Type} (l : List α) :
    ∀ (i : Nat) (d : α), i < l.length → l.set i (l.getD i d) = l := by
  induction l with
  | nil => intro i d h; simp at h
  | cons x xs ih =>
    intro i d h
    cases i with
    | zero => rfl
    | succ n =>
      have := ih n d (by simpa using h)
      simpa [List.set] using this

theorem mfr_scores (cfg : GConfig) (t u : GState)
    (h : maybe_finish_round cfg t = some u) : u.scores = t.scores := by
  unfold maybe_finish_round at h
  dsimp only at h
  split at h
  · split at h <;> (injection h with h; subst h; rfl)
  · cases h

theorem end_move_scores_eq (cfg : GConfig) (s : GState) :
    (end_move cfg s).scores = award_scores s := by
  unfold end_move
  dsimp only
  split
  · next u heq => exact mfr_scores cfg _ u heq
  · split
    · split
      · split
        · next u heq => exact mfr_scores cfg _ u heq
        · rfl
      · split
        · split <;> rfl
        · split
          · next u heq => exact mfr_scores cfg _ u heq
          · rfl
    · split
      · rfl
      · split
        · next u heq => exact mfr_scores cfg _ u heq
        · rfl

/-! ## C1 — scoring of a completed move -/

/-- C1: after `end_move`, the chain owner's score has grown by exactly
`1 + (T - 3)` when the move's total cleared tile-units `T` (accumulated over
all cascade steps in `move_cleared_total`) is at least 3, and by nothing when
`T < 3`; every other player's score is untouched.  The award indexes
`chain_owner`, not the current `turn`. -/
theorem end_move_award (cfg : GConfig) (s : GState)
    (h : s.chainOwner < s.scores.length) :
    (end_move cfg s).scores.getD s.chainOwner 0 =
      s.scores.getD s.chainOwner 0 +
        (if 3 ≤ s.moveClearedTotal then 1 + (s.moveClearedTotal - 3) else 0) ∧
    ∀ j, j ≠ s.chainOwner → (end_move cfg s).scores.getD j 0 = s.scores.getD j 0 := by
  rw [end_move_scores_eq]
  unfold award_scores
  split
  · refine ⟨getD_set_self _ _ _ _ h, fun j hj => getD_set_other _ _ _ _ _ ?_⟩
    exact fun e => hj e.symm
  · simp

/-- C1 witness: at the concrete state `sMid` (chain owner 1 holding a 7-unit
clear), player 1 gains `1 + (7 - 3)` points and player 0's score is kept. -/
theorem end_move_award_witness :
    sMid.chainOwner < sMid.scores.length ∧
    ((end_move cfgC sMid).scores.getD sMid.chainOwner 0 =
      sMid.scores.getD sMid.chainOwner 0 +
        (if 3 ≤ sMid.moveClearedTotal then 1 + (sMid.moveClearedTotal - 3) else 0) ∧
    ∀ j, j ≠ sMid.chainOwner →
      (end_move cfgC sMid).scores.getD j 0 = sMid.scores.getD j 0) :=
  ⟨by decide, end_move_award cfgC sMid (by decide)⟩

/-! ## C3 — legality check leaves the grid untouched -/

theorem getD_col_length (b : Board) (hwf : WF b) (c : Nat) (hc : c < COLS) :
    (b.getD c []).length = ROWS := by
  have hc' : c < b.length := hwf.1 ▸ hc
  rw [List.getD_eq_getElem b [] hc']
  exact hwf.2 _ (List.getElem_mem hc')

theorem setCell_wf (b : Board) (hwf : WF b) (c r : Nat) (hc : c < COLS) (v : Int) :
    WF (setCell b c r v) := by
  constructor
  · simpa [setCell] using hwf.1
  · intro col hcol
    rcases List.mem_or_eq_of_mem_set hcol with h | h
    · exact hwf.2 _ h
    · subst h
      rw [List.length_set]
      exact getD_col_length b hwf c hc

theorem getCell_setCell_self (b : Board) (hwf : WF b) (c r : Nat)
    (hc : c < COLS) (hr : r < ROWS) (v : Int) :
    getCell (setCell b c r v) c r = v := by
  have hc' : c < b.length := hwf.1 ▸ hc
  have hr' : r < (b.getD c []).length := by rw [getD_col_length b hwf c hc]; exact hr
  simp only [getCell, setCell]
  rw [getD_set_self _ _ _ _ hc', getD_set_self _ _ _ _ hr']

theorem getCell_setCell_other (b : Board) (hwf : WF b) (c r c' r' : Nat)
    (hc : c < COLS) (hne : (c', r') ≠ (c, r)) (v : Int) :
    getCell (setCell b c r v) c' r' = getCell b c' r' := by
  by_cases hcc : c' = c
  · subst hcc
    have hrr : r ≠ r' := by
      intro h; exact hne (by rw [h])
    have hc' : c' < b.length := hwf.1 ▸ hc
    simp only [getCell, setCell]
    rw [getD_set_self _ _ _ _ hc', getD_set_other _ _ _ _ _ hrr]
  · simp only [getCell, setCell]
    rw [getD_set_other _ _ _ _ _ (fun h => hcc h.symm)]

theorem setCell_setCell_same (b : Board) (hwf : WF b) (c r : Nat) (hc : c < COLS)
    (u v : Int) : setCell (setCell b c r u) c r v = setCell b c r v := by
  have hc' : c < b.length := hwf.1 ▸ hc
  simp only [setCell]
  rw [getD_set_self _ _ _ _ hc', List.set_set, List.set_set]

theorem setCell_comm (b : Board) (hwf : WF b) (c1 r1 c2 r2 : Nat)
    (h1 : c1 < COLS) (h2 : c2 < COLS) (hne : (c1, r1) ≠ (c2, r2)) (u v : Int) :
    setCell (setCell b c1 r1 u) c2 r2 v = setCell (setCell b c2 r2 v) c1 r1 u := by
  by_cases hcc : c1 = c2
  · subst hcc
    have hrr : r1 ≠ r2 := by
      intro h; exact hne (by rw [h])
    have hc' : c1 < b.length := hwf.1 ▸ h1
    simp only [setCell]
    rw [getD_set_self _ _ _ _ hc', getD_set_self _ _ _ _ hc', List.set_set, List.set_set,
        List.set_comm _ _ _ hrr]
  · have hcc' : c2 ≠ c1 := fun h => hcc h.symm
    simp only [setCell]
    rw [getD_set_other _ _ _ _ _ hcc, getD_set_other _ _ _ _ _ hcc',
        List.set_comm _ _ _ hcc]

theorem setCell_getCell_self (b : Board) (hwf : WF b) (c r : Nat)
    (hc : c < COLS) (hr : r < ROWS) : setCell b c r (getCell b c r) = b := by
  have hc' : c < b.length := hwf.1 ▸ hc
  have hr' : r < (b.getD c []).length := by
    rw [getD_col_length b hwf c hc]; exact hr
  simp only [setCell, getCell]
  rw [set_getD_self _ _ _ hr', set_getD_self _ _ _ hc']

theorem swap_cells_involutive (b : Board) (hwf : WF b) (a b' : Pos)
    (ha1 : a.1 < COLS) (ha2 : a.2 < ROWS) (hb1 : b'.1 < COLS) (hb2 : b'.2 < ROWS)
    (hne : a ≠ b') :
    swap_cells (swap_cells b a b') a b' = b := by
  have wf1 : WF (setCell b a.1 a.2 (getCell b b'.1 b'.2)) :=
    setCell_wf b hwf _ _ ha1 _
  have hneP : (a.1, a.2) ≠ (b'.1, b'.2) := hne
  have hnePs : (b'.1, b'.2) ≠ (a.1, a.2) := fun h => hne h.symm
  show setCell
      (setCell (swap_cells b a b') a.1 a.2 (getCell (swap_cells b a b') b'.1 b'.2))
      b'.1 b'.2 (getCell (swap_cells b a b') a.1 a.2) = b
  have g2 : getCell (swap_cells b a b') b'.1 b'.2 = getCell b a.1 a.2 := by
    show getCell (setCell (setCell b a.1 a.2 (getCell b b'.1 b'.2)) b'.1 b'.2
      (getCell b a.1 a.2)) b'.1 b'.2 = getCell b a.1 a.2
    exact getCell_setCell_self _ wf1 _ _ hb1 hb2 _
  have g1 : getCell (swap_cells b a b') a.1 a.2 = getCell b b'.1 b'.2 := by
    show getCell (setCell (setCell b a.1 a.2 (getCell b b'.1 b'.2)) b'.1 b'.2
      (getCell b a.1 a.2)) a.1 a.2 = getCell b b'.1 b'.2
    rw [getCell_setCell_other _ wf1 _ _ _ _ hb1 hneP _]
    exact getCell_setCell_self _ hwf _ _ ha1 ha2 _
  rw [g1, g2]
  show setCell
      (setCell (setCell (setCell b a.1 a.2 (getCell b b'.1 b'.2)) b'.1 b'.2
        (getCell b a.1 a.2)) a.1 a.2 (getCell b a.1 a.2))
      b'.1 b'.2 (getCell b b'.1 b'.2) = b
  rw [setCell_comm _ wf1 _ _ _ _ hb1 ha1 hnePs _ _]
  rw [setCell_setCell_same _ hwf _ _ ha1 _ _]
  rw [setCell_getCell_self _ hwf _ _ ha1 ha2]
  rw [setCell_setCell_same _ hwf _ _ hb1 _ _]
  rw [setCell_getCell_self _ hwf _ _ hb1 hb2]

/-- C3: `legal_swap` has no observable side effect — for any well-formed
grid and any pair of cells, legal or illegal, the board the check leaves
behind (after its speculative swap and the `finally` swap-back) is the board
it started from, and the verdict agrees with the pure predicate. -/
theorem legal_swap_no_mutation (bombAI : Bool) (b : Board) (a b' : Pos)
    (hwf : WF b) (ha1 : a.1 < COLS) (ha2 : a.2 < ROWS)
    (hb1 : b'.1 < COLS) (hb2 : b'.2 < ROWS) :
    (legal_swap_run bombAI b a b').2 = b ∧
    (legal_swap_run bombAI b a b').1 = legal_swap bombAI b a b' := by
  unfold legal_swap_run legal_swap
  by_cases hm : manhattan a b' = 1
  · have hne : a ≠ b' := by
      intro h
      subst h
      simp [manhattan] at hm
    rw [if_neg (by rw [hm]; exact fun h => h rfl), if_neg (by rw [hm]; exact fun h => h rfl)]
    exact ⟨swap_cells_involutive b hwf a b' ha1 ha2 hb1 hb2 hne, rfl⟩
  · rw [if_pos hm, if_pos hm]
    exact ⟨rfl, rfl⟩

/-- C3 witness: on the concrete pattern board, checking the (illegal) swap
`(0,0) ↔ (1,0)` hands back exactly the original board. -/
theorem legal_swap_no_mutation_witness :
    (WF pattB ∧ (0 : Nat) < COLS ∧ (0 : Nat) < ROWS ∧ (1 : Nat) < COLS) ∧
    ((legal_swap_run false pattB (0, 0) (1, 0)).2 = pattB ∧
     (legal_swap_run false pattB (0, 0) (1, 0)).1 = legal_swap false pattB (0, 0) (1, 0)) :=
  ⟨⟨by decide, by decide, by decide, by decide⟩,
   legal_swap_no_mutation false pattB (0, 0) (1, 0) (by decide) (by decide) (by decide)
     (by decide) (by decide)⟩

/-! ## C2 — cascade resolution reaches a fixed point -/

theorem chain_stop_clean (bombE chainE : Bool) (b : Board)
    (h : (chain_step_data bombE chainE b).groups = []) :
    find_all_matches b = [] ∧ (bombE = true → bomb_top_lefts b = []) := by
  unfold chain_step_data at h
  dsimp only at h
  rcases List.append_eq_nil.mp h with ⟨h1, h2⟩
  refine ⟨h1, fun hb => ?_⟩
  rw [hb] at h2
  simpa using h2

/-- C2: whenever the cascade loop following a committed swap terminates
through its own stop condition (`done = true`), the final board is stable:
`find_all_matches` returns no groups, and with bombs enabled no 2×2
same-color block remains anywhere. -/
theorem run_chain_fixed_point (bombE chainE : Bool) (gen : Nat → Nat) :
    ∀ (fuel : Nat) (b : Board) (total i t : Nat) (b' : Board) (i' : Nat),
      run_chain bombE chainE gen fuel b total i = (t, b', i', true) →
      find_all_matches b' = [] ∧ (bombE = true → bomb_top_lefts b' = []) := by
  intro fuel
  induction fuel with
  | zero =>
    intro b total i t b' i' h
    simp only [run_chain, Prod.mk.injEq] at h
    exact absurd h.2.2.2 (by simp)
  | succ n ih =>
    intro b total i t b' i' h
    rw [run_chain] at h
    split at h
    · next hstop =>
      simp only [Prod.mk.injEq] at h
      obtain ⟨-, hb, -, -⟩ := h
      subst hb
      exact chain_stop_clean bombE chainE _ hstop.1
    · exact ih _ _ _ _ _ _ h

/-- C2 witness: on `runB` (one horizontal 3-run), the cascade clears the run,
refills the top row back to the pattern, and stops in a stable state. -/
theorem run_chain_fixed_point_witness :
    run_chain true false runGen 2 runB 0 0 = (3, pattB, 3, true) ∧
    (find_all_matches pattB = [] ∧ (true = true → bomb_top_lefts pattB = [])) :=
  ⟨by decide, run_chain_fixed_point true false runGen 2 runB 0 0 3 pattB 3 (by decide)⟩

/-! ## C10 — the fall phase leaves no `EMPTY` cell -/

theorem random_tile_ne_empty (gen : Nat → Nat) (i : Nat) :
    random_tile gen i ≠ EMPTY := by
  unfold random_tile EMPTY
  intro h
  omega

theorem fall_column_length (gen : Nat → Nat) (col : List Int) (i : Nat)
    (h : col.length = ROWS) : (fall_column gen col i).1.length = ROWS := by
  unfold fall_column
  dsimp only
  rw [List.length_append, List.length_map, List.length_range]
  have hle : (col.filter (fun t => decide (t ≠ EMPTY))).length ≤ ROWS :=
    h ▸ List.length_filter_le _ _
  omega

theorem fall_column_ne_empty (gen : Nat → Nat) (col : List Int) (i : Nat) :
    ∀ x ∈ (fall_column gen col i).1, x ≠ EMPTY := by
  intro x hx
  unfold fall_column at hx
  dsimp only at hx
  rcases List.mem_append.mp hx with h | h
  · obtain ⟨r, -, rfl⟩ := List.mem_map.mp h
    exact random_tile_ne_empty gen _
  · simpa using (List.mem_filter.mp h).2

theorem fall_board_spec (gen : Nat → Nat) :
    ∀ (b : List (List Int)) (i : Nat), (∀ col ∈ b, col.length = ROWS) →
      (fall_board gen b i).1.length = b.length ∧
      ∀ col' ∈ (fall_board gen b i).1, col'.length = ROWS ∧ ∀ x ∈ col', x ≠ EMPTY := by
  intro b
  induction b with
  | nil =>
    intro i _
    exact ⟨rfl, by simp [fall_board]⟩
  | cons col rest ih =>
    intro i h
    obtain ⟨ihl, ihm⟩ :=
      ih (fall_column gen col i).2 (fun c hc => h c (List.mem_cons_of_mem _ hc))
    rw [fall_board]
    dsimp only
    refine ⟨by simpa using ihl, ?_⟩
    intro col' hcol'
    rcases List.mem_cons.mp hcol' with rfl | hmem
    · exact ⟨fall_column_length gen col i (h col (List.mem_cons_self _ _)),
        fall_column_ne_empty gen col i⟩
    · exact ihm _ hmem

/-- C10: after the falling/refill phase of any cascade step, every cell of
the 20×20 grid holds a non-`EMPTY` tile — each column position is overwritten
with either a compacted surviving tile or a fresh random tile. -/
theorem start_fall_fills_board (gen : Nat → Nat) (b : Board) (i : Nat)
    (hwf : WF b) :
    ∀ c r, c < COLS → r < ROWS → getCell (fall_board gen b i).1 c r ≠ EMPTY := by
  intro c r hc hr
  obtain ⟨hlen, hall⟩ := fall_board_spec gen b i hwf.2
  have hc' : c < (fall_board gen b i).1.length := by
    rw [hlen, hwf.1]; exact hc
  unfold getCell
  rw [List.getD_eq_getElem _ [] hc']
  obtain ⟨hlen', hne⟩ := hall _ (List.getElem_mem hc')
  have hr' : r < ((fall_board gen b i).1[c]).length := by rw [hlen']; exact hr
  rw [List.getD_eq_getElem _ EMPTY hr']
  exact hne _ (List.getElem_mem hr')

/-- C10 witness: falling on the concrete cleared board `clear_cells runB
[(0,0),(1,0),(2,0)]` leaves cell `(0,0)` (and, by the theorem, every cell)
non-empty. -/
theorem start_fall_fills_board_witness :
    WF (clear_cells runB [(0, 0), (1, 0), (2, 0)]) ∧
    ∀ c r, c < COLS → r < ROWS →
      getCell (fall_board runGen (clear_cells runB [(0, 0), (1, 0), (2, 0)]) 0).1 c r ≠ EMPTY :=
  ⟨by decide,
   start_fall_fills_board runGen (clear_cells runB [(0, 0), (1, 0), (2, 0)]) 0 (by decide)⟩

/-! ## C4 — bomb bonus folded into the cleared-tile tally -/

/-- C4: with bombs enabled, on the concrete board `bombB` the swap
`(9,9) ↔ (10,9)` completes one isolated 2×2 bomb and nothing else: the
swapped board has no ordinary match, exactly one bomb triggers, its unclipped
4×4 footprint of 16 cells is cleared, the tally becomes `16 + 2 = 18` (the
+2 bonus is folded in before scoring, not added as a separate score term),
and the move scores `1 + (18 - 3) = 16` points. -/
theorem bomb_bonus_scoring :
    find_all_matches (swap_cells bombB (9, 9) (10, 9)) = [] ∧
    (chain_step_data true false (swap_cells bombB (9, 9) (10, 9))).bombs.length = 1 ∧
    (chain_step_data true false (swap_cells bombB (9, 9) (10, 9))).toRemove.length = 16 ∧
    (run_chain true false bombGen 2 (swap_cells bombB (9, 9) (10, 9)) 0 0).1 = 18 ∧
    simulate_full_chain true false bombGen 2 bombB (9, 9) (10, 9) 0 = (16, 16) := by
  refine ⟨by decide, by decide, by decide, by decide, by decide⟩

/-! ## C5 — freshly generated boards and leftover runs -/

theorem phase1_col_const (gen : Nat → Nat) (b : Board) (c : Nat) :
    ∀ (l : List Nat) (i : Nat), (∀ r ∈ l, has_match_at b c r = false) →
      l.foldl (fun acc r => reroll_cell gen 21 acc.1 c r acc.2) (b, i) = (b, i) := by
  intro l
  induction l with
  | nil => intro i _; rfl
  | cons r rest ih =>
    intro i h
    have hr : has_match_at b c r = false := h r (List.mem_cons_self _ _)
    have hstep : reroll_cell gen 21 b c r i = (b, i) := by
      rw [reroll_cell, if_neg (by simp [hr])]
    rw [List.foldl_cons]
    dsimp only
    rw [hstep]
    exact ih i (fun r' hr' => h r' (List.mem_cons_of_mem _ hr'))

theorem sweep_col_const (gen : Nat → Nat) (b : Board) (c : Nat) :
    ∀ (l : List Nat) (i : Nat) (flag : Bool),
      (∀ r ∈ l, ¬(getCell b c r ≠ EMPTY ∧ getCell b (c + 1) r = getCell b c r ∧
        getCell b c (r + 1) = getCell b c r ∧
        getCell b (c + 1) (r + 1) = getCell b c r)) →
      l.foldl (fun acc r =>
        let t := getCell acc.1 c r
        if t ≠ EMPTY ∧ getCell acc.1 (c + 1) r = t ∧ getCell acc.1 c (r + 1) = t ∧
            getCell acc.1 (c + 1) (r + 1) = t then
          (setCell acc.1 (c + 1) (r + 1) (random_tile gen acc.2.1),
           acc.2.1 + 1, true)
        else acc) (b, i, flag) = (b, i, flag) := by
  intro l
  induction l with
  | nil => intro i flag _; rfl
  | cons r rest ih =>
    intro i flag h
    rw [List.foldl_cons]
    dsimp only
    rw [if_neg (h r (List.mem_cons_self _ _))]
    exact ih i flag (fun r' hr' => h r' (List.mem_cons_of_mem _ hr'))

set_option maxRecDepth 8000 in
theorem sweep_stuckB : break_blocks_sweep stuckGen stuckB 463 = (stuckB, 463, false) := by
  have hcols : List.range (COLS - 1) = [0, 1, 2, 3, 4, 5, 6, 7, 8, 9, 10, 11, 12,
      13, 14, 15, 16, 17, 18] := by decide
  unfold break_blocks_sweep
  rw [hcols]
  simp only [List.foldl_cons, List.foldl_nil]
  rw [sweep_col_const stuckGen stuckB 0 _ _ _ (by decide),
      sweep_col_const stuckGen stuckB 1 _ _ _ (by decide),
      sweep_col_const stuckGen stuckB 2 _ _ _ (by decide),
      sweep_col_const stuckGen stuckB 3 _ _ _ (by decide),
      sweep_col_const stuckGen stuckB 4 _ _ _ (by decide),
      sweep_col_const stuckGen stuckB 5 _ _ _ (by decide),
      sweep_col_const stuckGen stuckB 6 _ _ _ (by decide),
      sweep_col_const stuckGen stuckB 7 _ _ _ (by decide),
      sweep_col_const stuckGen stuckB 8 _ _ _ (by decide),
      sweep_col_const stuckGen stuckB 9 _ _ _ (by decide),
      sweep_col_const stuckGen stuckB 10 _ _ _ (by decide),
      sweep_col_const stuckGen stuckB 11 _ _ _ (by decide),
      sweep_col_const stuckGen stuckB 12 _ _ _ (by decide),
      sweep_col_const stuckGen stuckB 13 _ _ _ (by decide),
      sweep_col_const stuckGen stuckB 14 _ _ _ (by decide),
      sweep_col_const stuckGen stuckB 15 _ _ _ (by decide),
      sweep_col_const stuckGen stuckB 16 _ _ _ (by decide),
      sweep_col_const stuckGen stuckB 17 _ _ _ (by decide),
      sweep_col_const stuckGen stuckB 18 _ _ _ (by decide)]

set_option maxRecDepth 8000 in
theorem new_board_eq_stuckB : new_board stuckGen 0 = (stuckB, 463) := by
  have h0 : initial_board stuckGen 0 = (stuckB, 400) := by decide
  have hc0 : (List.range ROWS).foldl
      (fun acc r => reroll_cell stuckGen 21 acc.1 0 r acc.2) (stuckB, 400) = (stuckB, 463) := by
    decide
  have hcols : List.range COLS = [0, 1, 2, 3, 4, 5, 6, 7, 8, 9, 10, 11, 12, 13, 14,
      15, 16, 17, 18, 19] := by decide
  have h1 : new_board_phase1 stuckGen stuckB 400 = (stuckB, 463) := by
    unfold new_board_phase1
    rw [hcols]
    simp only [List.foldl_cons, List.foldl_nil]
    rw [hc0]
    rw [phase1_col_const stuckGen stuckB 1 _ _ (by decide),
        phase1_col_const stuckGen stuckB 2 _ _ (by decide),
        phase1_col_const stuckGen stuckB 3 _ _ (by decide),
        phase1_col_const stuckGen stuckB 4 _ _ (by decide),
        phase1_col_const stuckGen stuckB 5 _ _ (by decide),
        phase1_col_const stuckGen stuckB 6 _ _ (by decide),
        phase1_col_const stuckGen stuckB 7 _ _ (by decide),
        phase1_col_const stuckGen stuckB 8 _ _ (by decide),
        phase1_col_const stuckGen stuckB 9 _ _ (by decide),
        phase1_col_const stuckGen stuckB 10 _ _ (by decide),
        phase1_col_const stuckGen stuckB 11 _ _ (by decide),
        phase1_col_const stuckGen stuckB 12 _ _ (by decide),
        phase1_col_const stuckGen stuckB 13 _ _ (by decide),
        phase1_col_const stuckGen stuckB 14 _ _ (by decide),
        phase1_col_const stuckGen stuckB 15 _ _ (by decide),
        phase1_col_const stuckGen stuckB 16 _ _ (by decide),
        phase1_col_const stuckGen stuckB 17 _ _ (by decide),
        phase1_col_const stuckGen stuckB 18 _ _ (by decide),
        phase1_col_const stuckGen stuckB 19 _ _ (by decide)]
  have h2 : break_blocks stuckGen 1000 stuckB 463 = (stuckB, 463) := by
    rw [show (1000 : Nat) = 999 + 1 from rfl, break_blocks, sweep_stuckB]
    rfl
  unfold new_board
  rw [h0]
  dsimp only
  rw [h1]
  dsimp only
  exact h2

set_option maxRecDepth 4000 in
/-- C5 counterexample: on the tile supply `stuckGen`, `new_board` returns a
grid that still contains the vertical run `(0,0),(0,1),(0,2)` — the 20-try
reroll budgets of those cells are exhausted — even though no 2×2 same-color
block remains, so the claimed "empty match list modulo the 2×2-block
exception" fails. -/
theorem new_board_leftover_run :
    find_all_matches (new_board stuckGen 0).1 = [[(0, 0), (0, 1), (0, 2)]] ∧
    bomb_block_exists (new_board stuckGen 0).1 = false := by
  rw [new_board_eq_stuckB]
  exact ⟨by decide, by decide⟩

/-- C5 amended: generation is only best-effort match-free — each cell is
rerolled until it participates in no ≥3 run or its 20-try budget runs out;
whenever the loop settles a cell within budget (the supply counter advanced
by less than the full budget), that cell participates in no run at that
moment, but exhausted budgets (and later 2×2-block-breaking rerolls) can
leave runs in the returned grid. -/
theorem reroll_cell_settled (gen : Nat → Nat) (c r : Nat) :
    ∀ (fuel : Nat) (b : Board) (i : Nat),
      (reroll_cell gen fuel b c r i).2 < i + fuel →
      has_match_at (reroll_cell gen fuel b c r i).1 c r = false := by
  intro fuel
  induction fuel with
  | zero =>
    intro b i h
    rw [reroll_cell] at h
    omega
  | succ n ih =>
    intro b i h
    by_cases hm : has_match_at b c r = true
    · rw [reroll_cell, if_pos hm] at h ⊢
      exact ih _ _ (by omega)
    · rw [reroll_cell, if_neg hm]
      exact Bool.eq_false_iff.mpr hm

/-- C5 amended witness: on the pattern board the reroll loop for `(0,0)`
exits immediately within budget and the cell indeed sits in no run. -/
theorem reroll_cell_settled_witness :
    (reroll_cell stuckGen 21 pattB 0 0 0).2 < 0 + 21 ∧
    has_match_at (reroll_cell stuckGen 21 pattB 0 0 0).1 0 0 = false :=
  ⟨by decide, reroll_cell_settled stuckGen 0 0 21 pattB 0 (by decide)⟩

/-! ## C6 — turn-order policies -/

theorem find?_nat_spec (p : Nat → Bool) :
    ∀ (l : List Nat) (a : Nat), l.find? p = some a →
      ∃ k, k < l.length ∧ l.getD k 0 = a ∧ p a = true ∧
        ∀ j, j < k → p (l.getD j 0) = false := by
  intro l
  induction l with
  | nil => intro a h; cases h
  | cons x xs ih =>
    intro a h
    rw [List.find?_cons] at h
    cases hx : p x
    · rw [hx] at h
      dsimp only at h
      obtain ⟨k, hk, hget, hpa, hpre⟩ := ih a h
      refine ⟨k + 1, by simpa using Nat.succ_lt_succ hk, by simpa using hget, hpa, ?_⟩
      intro j hj
      cases j with
      | zero => simpa using hx
      | succ m => simpa using hpre m (by omega)
    · rw [hx] at h
      dsimp only at h
      injection h with h
      subst h
      exact ⟨0, by simp, rfl, hx, fun j hj => absurd hj (Nat.not_lt_zero j)⟩

theorem getD_map_range (f : Nat → Nat) (n k : Nat) (hk : k < n) :
    ((List.range n).map f).getD k 0 = f k := by
  rw [List.getD_eq_getElem _ _ (by simpa using hk)]
  simp

theorem find_next_turn_spec (cfg : GConfig) (moves : List Nat) (cur cand : Nat)
    (h : find_next_turn cfg moves cur = some cand) :
    ∃ k, 1 ≤ k ∧ k ≤ cfg.playersCount ∧ cand = (cur + k) % cfg.playersCount ∧
      0 < moves.getD cand 0 ∧
      ∀ j, 1 ≤ j → j < k → moves.getD ((cur + j) % cfg.playersCount) 0 = 0 := by
  unfold find_next_turn at h
  obtain ⟨k, hk, hget, hpa, hpre⟩ := find?_nat_spec _ _ _ h
  rw [List.length_map, List.length_range] at hk
  rw [getD_map_range _ _ _ hk] at hget
  refine ⟨k + 1, by omega, by omega, hget.symm, by simpa using hpa, ?_⟩
  intro j hj1 hjk
  have hj' := hpre (j - 1) (by omega)
  rw [getD_map_range _ _ _ (by omega)] at hj'
  have : j - 1 + 1 = j := by omega
  rw [this] at hj'
  simpa using hj'

theorem end_move_rr_turn (cfg : GConfig) (s : GState) (cand : Nat)
    (hord : cfg.order = .roundRobin)
    (hmfr : maybe_finish_round cfg (after_consume s) = none)
    (hfind : find_next_turn cfg (after_consume s).movesLeft s.turn = some cand) :
    (end_move cfg s).turn = cand := by
  unfold end_move
  dsimp only
  rw [hmfr, hord]
  dsimp only
  rw [show ({ after_consume s with forcedPass := false } : GState).movesLeft =
    (after_consume s).movesLeft from rfl] at hfind ⊢
  rw [hfind]

/-- C6: under the `consecutive` policy with 2 players and 3 moves per round,
player 0 makes all three moves before control passes to player 1, while
`round_robin` with the same configuration alternates every move; and in
general, whenever the round does not finish, `round_robin` hands the turn to
the next player modulo the player count that still has moves, skipping
exhausted players. -/
theorem turn_order_policies :
    ((List.range 6).map (fun k => ((end_move cfgC)^[k] sInit).turn) =
      [0, 0, 0, 1, 1, 1]) ∧
    ((List.range 6).map (fun k => ((end_move cfgR)^[k] sInit).turn) =
      [0, 1, 0, 1, 0, 1]) ∧
    (∀ cfg s cand, cfg.order = .roundRobin →
      maybe_finish_round cfg (after_consume s) = none →
      find_next_turn cfg (after_consume s).movesLeft s.turn = some cand →
      (end_move cfg s).turn = cand ∧
      ∃ k, 1 ≤ k ∧ k ≤ cfg.playersCount ∧ cand = (s.turn + k) % cfg.playersCount ∧
        0 < (after_consume s).movesLeft.getD cand 0 ∧
        ∀ j, 1 ≤ j → j < k →
          (after_consume s).movesLeft.getD ((s.turn + j) % cfg.playersCount) 0 = 0) := by
  refine ⟨by decide, by decide, ?_⟩
  intro cfg s cand hord hmfr hfind
  exact ⟨end_move_rr_turn cfg s cand hord hmfr hfind,
    find_next_turn_spec cfg _ _ _ hfind⟩

/-- C6 witness: from the concrete round-robin start state, the general
round-robin clause hands the turn to player 1 after player 0's move. -/
theorem turn_order_policies_witness :
    (end_move cfgR sInit).turn = 1 ∧
    ∃ k, 1 ≤ k ∧ k ≤ cfgR.playersCount ∧ 1 = (sInit.turn + k) % cfgR.playersCount ∧
      0 < (after_consume sInit).movesLeft.getD 1 0 ∧
      ∀ j, 1 ≤ j → j < k →
        (after_consume sInit).movesLeft.getD ((sInit.turn + j) % cfgR.playersCount) 0 = 0 :=
  turn_order_policies.2.2 cfgR sInit 1 rfl (by decide) (by decide)

/-! ## C7 — round termination and the terminal GameOver state -/

theorem all_zero_getD (l : List Nat) (h : all_zero l = true) (i : Nat) :
    l.getD i 0 = 0 := by
  by_cases hi : i < l.length
  · rw [List.getD_eq_getElem _ _ hi]
    have := List.all_eq_true.mp h _ (List.getElem_mem hi)
    simpa using this
  · rw [List.getD_eq_default _ _ (by omega)]

theorem all_zero_set_zero (l : List Nat) (h : all_zero l = true) (i : Nat) :
    all_zero (l.set i 0) = true := by
  apply List.all_eq_true.mpr
  intro x hx
  rcases List.mem_or_eq_of_mem_set hx with hm | hm
  · exact List.all_eq_true.mp h _ hm
  · simp [hm]

theorem all_zero_after_consume (s : GState) (h : all_zero s.movesLeft = true) :
    all_zero (after_consume s).movesLeft = true := by
  show all_zero (dec_moves (after_scoring s) s.turn) = true
  unfold dec_moves
  split
  · exact all_zero_set_zero _ h _
  · have hz : (after_scoring s).movesLeft.getD s.turn 0 = 0 := all_zero_getD _ h _
    rw [hz]
    exact all_zero_set_zero _ h _

theorem mfr_game_over (cfg : GConfig) (t : GState)
    (hz : all_zero t.movesLeft = true)
    (hlt : cfg.totalRounds < t.currentRound + 1) :
    maybe_finish_round cfg t =
      some { t with
        currentRound := t.currentRound + 1
        forcedPass := false
        phase := .gameOver } := by
  unfold maybe_finish_round
  rw [if_pos hz]
  dsimp only
  rw [if_pos hlt]

theorem end_move_game_over (cfg : GConfig) (s : GState)
    (hz : all_zero (after_consume s).movesLeft = true)
    (hlt : cfg.totalRounds < s.currentRound + 1) :
    (end_move cfg s).phase = .gameOver := by
  unfold end_move
  dsimp only
  rw [mfr_game_over cfg (after_consume s) hz
    (show cfg.totalRounds < (after_consume s).currentRound + 1 from hlt)]

theorem le_foldl_max (l : List Nat) : ∀ a : Nat, a ≤ l.foldl max a := by
  induction l with
  | nil => intro a; exact Nat.le_refl a
  | cons x xs ih =>
    intro a
    exact le_trans (Nat.le_max_left a x) (ih (max a x))

theorem getD_le_foldl_max (l : List Nat) :
    ∀ (a j : Nat), j < l.length → l.getD j 0 ≤ l.foldl max a := by
  induction l with
  | nil => intro a j h; simp at h
  | cons x xs ih =>
    intro a j h
    cases j with
    | zero => exact le_trans (Nat.le_max_right a x) (le_foldl_max xs (max a x))
    | succ m => simpa using ih (max a x) m (by simpa using h)

theorem foldl_max_mem (l : List Nat) :
    ∀ a : Nat, l.foldl max a = a ∨ ∃ j, j < l.length ∧ l.getD j 0 = l.foldl max a := by
  induction l with
  | nil => intro a; exact Or.inl rfl
  | cons x xs ih =>
    intro a
    rcases ih (max a x) with h | ⟨j, hj, hjeq⟩
    · rcases max_choice a x with hm | hm
      · left
        rw [List.foldl_cons, h, hm]
      · right
        refine ⟨0, by simp, ?_⟩
        rw [List.getD_cons_zero, List.foldl_cons, h, hm]
    · exact Or.inr ⟨j + 1, by simpa using Nat.succ_lt_succ hj, by simpa using hjeq⟩

theorem winners_list_spec (scores : List Nat) (i : Nat) :
    i ∈ winners_list scores ↔
      i < scores.length ∧
        ∀ j, j < scores.length → scores.getD j 0 ≤ scores.getD i 0 := by
  constructor
  · intro hi
    have hm := List.mem_filter.mp hi
    have hrange := List.mem_range.mp hm.1
    have heq : scores.getD i 0 = best_score scores := by simpa using hm.2
    exact ⟨hrange, fun j hj => heq ▸ getD_le_foldl_max scores 0 j hj⟩
  · rintro ⟨hi, hall⟩
    refine List.mem_filter.mpr ⟨List.mem_range.mpr hi, ?_⟩
    have h1 : scores.getD i 0 ≤ best_score scores := getD_le_foldl_max scores 0 i hi
    have h2 : best_score scores ≤ scores.getD i 0 := by
      rcases foldl_max_mem scores 0 with h | ⟨j, hj, hjeq⟩
      · unfold best_score
        rw [h]
        exact Nat.zero_le _
      · unfold best_score
        rw [← hjeq]
        exact hall j hj
    exact decide_eq_true (Nat.le_antisymm h1 h2)

/-- C7: once every player's remaining-move count is zero and the incremented
round number exceeds the configured total, `end_move` transitions to the
terminal `GameOver` state; from any such exhausted past-the-end state a
further `end_move` yields `GameOver` again (never `RoundAnnounce`); the
winner is a player of maximum score, and two distinct top scorers force a
draw with no tiebreak. -/
theorem game_over_terminal :
    (∀ cfg s, all_zero (after_consume s).movesLeft = true →
      cfg.totalRounds < s.currentRound + 1 →
      (end_move cfg s).phase = .gameOver) ∧
    (∀ cfg s, all_zero s.movesLeft = true → cfg.totalRounds < s.currentRound →
      (end_move cfg s).phase = .gameOver) ∧
    (∀ scores i, i ∈ winners_list scores ↔
      i < scores.length ∧
        ∀ j, j < scores.length → scores.getD j 0 ≤ scores.getD i 0) ∧
    (∀ scores w, game_over_winner scores = some w → w ∈ winners_list scores) ∧
    (∀ scores w w', w ∈ winners_list scores → w' ∈ winners_list scores → w ≠ w' →
      game_over_winner scores = none) := by
  refine ⟨end_move_game_over, ?_, winners_list_spec, ?_, ?_⟩
  · intro cfg s hz hlt
    exact end_move_game_over cfg s (all_zero_after_consume s hz) (by omega)
  · intro scores w h
    unfold game_over_winner at h
    split at h
    · next x heq =>
      injection h with h
      subst h
      rw [heq]
      exact List.mem_singleton_self _
    · cases h
  · intro scores w w' hw hw' hne
    unfold game_over_winner
    split
    · next x heq =>
      rw [heq] at hw hw'
      rw [List.mem_singleton.mp hw, List.mem_singleton.mp hw'] at hne
      exact absurd rfl hne
    · rfl

/-- C7 witness: in the concrete exhausted state `sDone` (round counter past
the total), another `end_move` stays in `GameOver`, and the tied score list
`[5, 5]` is a draw. -/
theorem game_over_terminal_witness :
    (end_move cfgC sDone).phase = .gameOver ∧ game_over_winner [5, 5] = none :=
  ⟨game_over_terminal.2.1 cfgC sDone (by decide) (by decide),
   game_over_terminal.2.2.2.2 [5, 5] 0 1 (by decide) (by decide) (by decide)⟩

/-! ## C8 — tournament bracket construction and byes -/

/-- C8 counterexample: with 5 players (any shuffle, here the identity
order), round 0 is `[(0,1), (2,3), (4,–), (–,–)]`; pair 3 has two `None`
sides, and `auto_advance_byes` resolves only pairs with exactly one `None`,
so not every round-0 pair containing a bye gets a result at construction
time — the all-bye pair is resolved later, on input, by
`start_next_tournament_match`. -/
theorem bracket_byes_counterexample :
    ¬ (∀ mi, mi < ((build_bracket [0, 1, 2, 3, 4]).headD []).length →
      ((((build_bracket [0, 1, 2, 3, 4]).headD []).getD mi (none, none)).1 = none ∨
       (((build_bracket [0, 1, 2, 3, 4]).headD []).getD mi (none, none)).2 = none) →
      (0, mi) ∈ (auto_advance_byes (build_bracket [0, 1, 2, 3, 4])).map Prod.fst) := by
  decide

/-- C8 amended: `build_bracket(5)` pads to 8 slots and a round-0 of 4 pairs
containing 3 `None` entries, and the final round has exactly one node; but
bracket-construction-time auto-resolution covers only pairs with exactly one
`None` side — for 5 players just the single result `((0,2), order[4])` — the
two byes of the `(None, None)` pair are not resolved at construction time. -/
theorem bracket_build_five (order : List Nat) (h : order.length = 5) :
    ((build_bracket order).headD []).length = 4 ∧
    (((build_bracket order).headD []).flatMap (fun p => [p.1, p.2])).length = 8 ∧
    (((build_bracket order).headD []).flatMap (fun p => [p.1, p.2])).count none = 3 ∧
    auto_advance_byes (build_bracket order) = [((0, 2), some (order.getD 4 0))] ∧
    ((build_bracket order).getLast?).map List.length = some 1 := by
  match order, h with
  | [a, b, c, d, e], _ =>
    refine ⟨rfl, rfl, rfl, ?_, ?_⟩
    · simp [auto_advance_byes, build_bracket, next_pow2, next_pow2_aux, make_pairs,
        empty_rounds, List.range_succ]
    · simp [build_bracket, next_pow2, next_pow2_aux, make_pairs, empty_rounds]

/-- C8 amended witness: the concrete order `[0,1,2,3,4]` padded to 8 slots,
3 byes, one automatic result `((0,2), 4)`, final round a single node. -/
theorem bracket_build_five_witness :
    ([0, 1, 2, 3, 4] : List Nat).length = 5 ∧
    (((build_bracket [0, 1, 2, 3, 4]).headD []).length = 4 ∧
    (((build_bracket [0, 1, 2, 3, 4]).headD []).flatMap (fun p => [p.1, p.2])).length = 8 ∧
    (((build_bracket [0, 1, 2, 3, 4]).headD []).flatMap (fun p => [p.1, p.2])).count none = 3 ∧
    auto_advance_byes (build_bracket [0, 1, 2, 3, 4]) =
      [((0, 2), some (([0, 1, 2, 3, 4] : List Nat).getD 4 0))] ∧
    ((build_bracket [0, 1, 2, 3, 4]).getLast?).map List.length = some 1) :=
  ⟨rfl, bracket_build_five [0, 1, 2, 3, 4] rfl⟩

/-! ## C9 — AI move ranking -/

theorem dedup_insert_inv (done acc : List Move) (m : Move)
    (h : KeyInv done acc) : KeyInv (done ++ [m]) (dedup_insert acc m) := by
  obtain ⟨h1, h2, h3, h4⟩ := h
  unfold dedup_insert
  by_cases hany : acc.any (fun e => decide (pair_key e = pair_key m)) = true
  · rw [if_pos hany]
    have hex : ∃ e ∈ acc, pair_key e = pair_key m := by
      obtain ⟨x, hx, hpx⟩ := List.any_eq_true.mp hany
      exact ⟨x, hx, of_decide_eq_true hpx⟩
    refine ⟨?_, ?_, ?_, ?_⟩
    · intro e' he' m' hm' hkey
      obtain ⟨e, he, rfl⟩ := List.mem_map.mp he'
      rcases List.mem_append.mp hm' with hmd | hmm
      · by_cases hc : pair_key e = pair_key m ∧ e.1 < m.1
        · rw [if_pos hc] at hkey ⊢
          have hk2 : pair_key m' = pair_key e := by rw [hkey, hc.1]
          exact le_trans (h1 e he m' hmd hk2) (le_of_lt hc.2)
        · rw [if_neg hc] at hkey ⊢
          exact h1 e he m' hmd hkey
      · have hm'' : m = m' := by symm; simpa using hmm
        subst hm''
        by_cases hc : pair_key e = pair_key m ∧ e.1 < m.1
        · rw [if_pos hc]
        · rw [if_neg hc] at hkey ⊢
          have hke : pair_key e = pair_key m := hkey.symm
          have hnlt : ¬ e.1 < m.1 := fun hlt => hc ⟨hke, hlt⟩
          omega
    · intro e' he'
      obtain ⟨e, he, rfl⟩ := List.mem_map.mp he'
      by_cases hc : pair_key e = pair_key m ∧ e.1 < m.1
      · rw [if_pos hc]
        rw [List.find?_append]
        have hnone : done.find?
            (fun m' => decide (pair_key m' = pair_key m ∧ m.1 ≤ m'.1)) = none := by
          rw [List.find?_eq_none]
          intro x hx hpx
          have hp := of_decide_eq_true hpx
          have hkey : pair_key x = pair_key e := by rw [hp.1, hc.1]
          have := h1 e he x hx hkey
          omega
        rw [hnone, Option.none_or]
        have hp : (fun m' => decide (pair_key m' = pair_key m ∧ m.1 ≤ m'.1)) m = true :=
          decide_eq_true ⟨rfl, le_refl _⟩
        simp [List.find?_cons, hp]
      · rw [if_neg hc]
        rw [List.find?_append, h2 e he, Option.or_some]
    · refine List.Pairwise.map _ ?_ h3
      intro a b hab
      show pair_key (if pair_key a = pair_key m ∧ a.1 < m.1 then m else a) ≠
           pair_key (if pair_key b = pair_key m ∧ b.1 < m.1 then m else b)
      by_cases hca : pair_key a = pair_key m ∧ a.1 < m.1
      · rw [if_pos hca]
        by_cases hcb : pair_key b = pair_key m ∧ b.1 < m.1
        · rw [if_pos hcb]
          exact absurd (hca.1.trans hcb.1.symm) hab
        · rw [if_neg hcb]
          exact fun h => hab (hca.1.trans h)
      · rw [if_neg hca]
        by_cases hcb : pair_key b = pair_key m ∧ b.1 < m.1
        · rw [if_pos hcb]
          exact fun h => hab (h.trans hcb.1.symm)
        · rw [if_neg hcb]
          exact hab
    · intro m' hm'
      rcases List.mem_append.mp hm' with hmd | hmm
      · obtain ⟨e, he, hkey⟩ := h4 m' hmd
        refine ⟨if pair_key e = pair_key m ∧ e.1 < m.1 then m else e,
          List.mem_map.mpr ⟨e, he, rfl⟩, ?_⟩
        by_cases hc : pair_key e = pair_key m ∧ e.1 < m.1
        · rw [if_pos hc]
          exact hc.1.symm.trans hkey
        · rw [if_neg hc]
          exact hkey
      · have hm'' : m = m' := by symm; simpa using hmm
        subst hm''
        obtain ⟨e, he, hkey⟩ := hex
        refine ⟨if pair_key e = pair_key m ∧ e.1 < m.1 then m else e,
          List.mem_map.mpr ⟨e, he, rfl⟩, ?_⟩
        by_cases hc : pair_key e = pair_key m ∧ e.1 < m.1
        · rw [if_pos hc]
        · rw [if_neg hc]
          exact hkey
  · rw [if_neg hany]
    have hnotin : ∀ e ∈ acc, ¬ pair_key e = pair_key m := by
      intro e he hkey
      exact hany (List.any_eq_true.mpr ⟨e, he, decide_eq_true hkey⟩)
    have hdone_none : ∀ m' ∈ done, pair_key m' ≠ pair_key m := by
      intro m' hm' hkey
      obtain ⟨e, he, hekey⟩ := h4 m' hm'
      exact hnotin e he (hekey.trans hkey)
    refine ⟨?_, ?_, ?_, ?_⟩
    · intro e he' m' hm' hkey
      rcases List.mem_append.mp he' with he | he
      · rcases List.mem_append.mp hm' with hmd | hmm
        · exact h1 e he m' hmd hkey
        · have hm'' : m = m' := by symm; simpa using hmm
          subst hm''
          exact absurd hkey.symm (hnotin e he)
      · have he'' : m = e := by symm; simpa using he
        subst he''
        rcases List.mem_append.mp hm' with hmd | hmm
        · exact absurd hkey (hdone_none m' hmd)
        · have hm'' : m = m' := by symm; simpa using hmm
          subst hm''
          exact le_refl _
    · intro e he'
      rcases List.mem_append.mp he' with he | he
      · rw [List.find?_append, h2 e he, Option.or_some]
      · have he'' : m = e := by symm; simpa using he
        subst he''
        rw [List.find?_append]
        have hnone : done.find?
            (fun m' => decide (pair_key m' = pair_key m ∧ m.1 ≤ m'.1)) = none := by
          rw [List.find?_eq_none]
          intro x hx hpx
          exact hdone_none x hx (of_decide_eq_true hpx).1
        rw [hnone, Option.none_or]
        have hp : (fun m' => decide (pair_key m' = pair_key m ∧ m.1 ≤ m'.1)) m = true :=
          decide_eq_true ⟨rfl, le_refl _⟩
        simp [List.find?_cons, hp]
    · rw [List.pairwise_append]
      refine ⟨h3, List.pairwise_singleton _ _, ?_⟩
      intro a ha b hb
      have hb' : b = m := by simpa using hb
      subst hb'
      exact hnotin a ha
    · intro m' hm'
      rcases List.mem_append.mp hm' with hmd | hmm
      · obtain ⟨e, he, hkey⟩ := h4 m' hmd
        exact ⟨e, List.mem_append_left _ he, hkey⟩
      · have hm'' : m = m' := by symm; simpa using hmm
        subst hm''
        exact ⟨m, List.mem_append_right _ (List.mem_singleton_self m), rfl⟩

theorem dedup_fold_inv :
    ∀ (ms done acc : List Move), KeyInv done acc →
      KeyInv (done ++ ms) (ms.foldl dedup_insert acc) := by
  intro ms
  induction ms with
  | nil =>
    intro done acc h
    simpa using h
  | cons m rest ih =>
    intro done acc h
    have hstep := ih (done ++ [m]) (dedup_insert acc m) (dedup_insert_inv done acc m h)
    rw [List.foldl_cons]
    simpa [List.append_assoc] using hstep

theorem dedup_best_inv (ms : List Move) : KeyInv ms (dedup_best ms) := by
  have h0 : KeyInv [] [] :=
    ⟨by simp, by simp, List.Pairwise.nil, by simp⟩
  have := dedup_fold_inv ms [] [] h0
  simpa [dedup_best] using this

/-- C9: `all_scoring_swaps` is exactly the stable descending-score sort of
the per-pair-deduplicated raw move list, and the computer plays its head.
The pipeline output is sorted by descending score with pairwise-distinct
undirected pair keys; every retained entry is the first raw move attaining
its pair's maximal score (ties broken by first-seen orientation) and
dominates all raw moves of its pair; every scored pair stays represented;
and whenever the ranked list is nonempty the computer's selection is its
head, whose score bounds every ranked entry. -/
theorem ai_move_ranking :
    (∀ bombAI chainAI gen fuel b i0,
      all_scoring_swaps bombAI chainAI gen fuel b i0 =
        List.insertionSort score_ge
          (dedup_best (raw_scoring_moves bombAI chainAI gen fuel b i0).1) ∧
      computer_turn_move bombAI chainAI gen fuel b i0 =
        (all_scoring_swaps bombAI chainAI gen fuel b i0).head?.map (fun m => m.2)) ∧
    (∀ ms : List Move,
      List.Sorted score_ge (List.insertionSort score_ge (dedup_best ms)) ∧
      List.Pairwise (fun x y => pair_key x ≠ pair_key y)
        (List.insertionSort score_ge (dedup_best ms)) ∧
      (∀ e ∈ List.insertionSort score_ge (dedup_best ms),
        ms.find? (fun m => decide (pair_key m = pair_key e ∧ e.1 ≤ m.1)) = some e ∧
        ∀ m ∈ ms, pair_key m = pair_key e → m.1 ≤ e.1) ∧
      (∀ m ∈ ms, ∃ e ∈ List.insertionSort score_ge (dedup_best ms),
        pair_key e = pair_key m)) ∧
    (∀ (ms : List Move) (m : Move) (rest : List Move),
      List.insertionSort score_ge (dedup_best ms) = m :: rest →
      ∀ e ∈ m :: rest, e.1 ≤ m.1) := by
  refine ⟨?_, ?_, ?_⟩
  · intro bombAI chainAI gen fuel b i0
    refine ⟨rfl, ?_⟩
    cases h : all_scoring_swaps bombAI chainAI gen fuel b i0 with
    | nil =>
      unfold computer_turn_move
      rw [h]
      rfl
    | cons x xs =>
      unfold computer_turn_move
      rw [h]
      rfl
  · intro ms
    have hperm := List.perm_insertionSort score_ge (dedup_best ms)
    obtain ⟨h1, h2, h3, h4⟩ := dedup_best_inv ms
    refine ⟨List.sorted_insertionSort score_ge _, ?_, ?_, ?_⟩
    · exact hperm.symm.pairwise h3 (fun h e => h e.symm)
    · intro e he
      have he' : e ∈ dedup_best ms := hperm.mem_iff.mp he
      exact ⟨h2 e he', h1 e he'⟩
    · intro m hm
      obtain ⟨e, he, hkey⟩ := h4 m hm
      exact ⟨e, hperm.mem_iff.mpr he, hkey⟩
  · intro ms m rest hms
    have hsorted := List.sorted_insertionSort score_ge (dedup_best ms)
    rw [hms] at hsorted
    intro e he
    rcases List.mem_cons.mp he with rfl | he'
    · exact le_refl _
    · exact List.rel_of_sorted_cons hsorted e he'

/-- C9 witness: on the concrete raw move list `msW` (a tied pair seen in two
orientations plus a 1-point pair), the ranked list is
`[(4,(2,0),(2,1)), (1,(0,0),(0,1))]`; its top entry is the first raw move
attaining the pair's maximal score, and its score bounds every ranked
entry. -/
theorem ai_move_ranking_witness :
    (List.insertionSort score_ge (dedup_best msW) = [mvA, (1, (0, 0), (0, 1))]) ∧
    (msW.find? (fun m => decide (pair_key m = pair_key mvA ∧ mvA.1 ≤ m.1)) = some mvA) ∧
    (∀ e ∈ mvA :: [((1 : Nat), ((0, 0) : Pos), ((0, 1) : Pos))], e.1 ≤ mvA.1) :=
  ⟨by decide,
   ((ai_move_ranking.2.1 msW).2.2.1 mvA (by decide)).1,
   ai_move_ranking.2.2 msW mvA [(1, (0, 0), (0, 1))] (by decide)⟩

end MatchGame
